import Mathlib

/-!
Verification of the transfer-payments pipeline in
`src/canada_major_transfers/main.py`.

The pipeline is embedded shallowly: a pandas `DataFrame` coming from
`pd.read_html` is a `RawTable` (column names plus rows of textual cells,
the first cell of each row being the raw label); `clean_table`,
`aggregate_data`, `build_long_dataframe` and the component filter of
`update_graph` are translated function by function.  Numbers are `ℚ`,
and the float `NaN` produced by `pd.to_numeric(..., errors='coerce')`
is the explicit value `PValue.nan`.  `Exception`s caught by the source
are `Option.none` results.
-/

set_option maxRecDepth 4000

/-! ### Basic string helpers mirroring Python / pandas primitives -/

/-- Drop a trailing run of characters satisfying `p` (used for Python's
`str.strip` and for the `\s*\d+$` footnote regex). -/
def dropTrail (p : Char → Bool) (cs : List Char) : List Char :=
  (cs.reverse.dropWhile p).reverse

/-- Python `str.strip()` on a character list. -/
def pyStripChars (cs : List Char) : List Char :=
  dropTrail Char.isWhitespace (cs.dropWhile Char.isWhitespace)

/-- Python `str.strip()`. -/
def pyStrip (s : String) : String :=
  String.mk (pyStripChars s.data)

/-- Python `str.lower()` (the labels handled by the script are ASCII). -/
def pyLower (s : String) : String :=
  String.mk (s.data.map Char.toLower)

/-- The pandas `str.replace(r"\s*\d+$", "", regex=True)` step of
`clean_table`: if the label ends in digits, remove that digit run and
the whitespace run immediately before it. -/
def stripFootnoteChars (cs : List Char) : List Char :=
  match cs.reverse with
  | [] => cs
  | c :: rest =>
    if c.isDigit then ((rest.dropWhile Char.isDigit).dropWhile Char.isWhitespace).reverse
    else cs

/-- Label cleaning of `clean_table`:
`.str.replace(r"\s*\d+$", "", regex=True).str.strip()`. -/
def normalizeLabel (s : String) : String :=
  pyStrip (String.mk (stripFootnoteChars s.data))

/-- Value of a digit run read in base 10. -/
def digitsVal (cs : List Char) : Nat :=
  cs.foldl (fun a c => a * 10 + (c.toNat - 48)) 0

/-- Unsigned numeric literal: digits with an optional single decimal
point (at least one digit overall). -/
def parseUnsigned (cs : List Char) : Option ℚ :=
  let ip := cs.takeWhile Char.isDigit
  let rest := cs.dropWhile Char.isDigit
  match rest with
  | [] => if ip = [] then none else some (digitsVal ip)
  | '.' :: fp =>
    if fp.all Char.isDigit ∧ ¬(ip = [] ∧ fp = []) then
      some ((digitsVal ip : ℚ) + (digitsVal fp : ℚ) / ((10 : ℚ) ^ fp.length))
    else none
  | _ => none

/-- Numeric parsing performed by `pd.to_numeric`: optional surrounding
whitespace, optional sign, then an unsigned literal. -/
def parseNum (cs : List Char) : Option ℚ :=
  match pyStripChars cs with
  | '-' :: rest => (parseUnsigned rest).map (fun q => -q)
  | '+' :: rest => parseUnsigned rest
  | t => parseUnsigned t

/-- A cell value after numeric coercion: an actual number, or the float
`NaN` that `pd.to_numeric(..., errors='coerce')` yields on failure. -/
inductive PValue where
  | num (q : ℚ)
  | nan
  deriving DecidableEq, Repr

/-- Strip currency symbols and thousands separators:
`str.replace(r"[\$,]", "", regex=True)`. -/
def stripMoney (cs : List Char) : List Char :=
  cs.filter (fun c => !(c == '$' || c == ','))

/-- The numeric coercion applied to one data cell by `clean_table`:
`df.replace("-", 0)` followed by
`pd.to_numeric(df[col].astype(str).str.replace(r"[\$,]", "", regex=True), errors='coerce')`. -/
def coerceCell (s : String) : PValue :=
  let s1 := if s = "-" then "0" else s
  match parseNum (stripMoney s1.data) with
  | some q => .num q
  | none => .nan

/-! ### Data model -/

/-- One table as returned by `pd.read_html`: the column names (the first
column holds the labels), and the rows (first cell = raw label, the
remaining cells aligned with the remaining columns). -/
structure RawTable where
  cols : List String
  rows : List (String × List String)
  deriving DecidableEq, Repr

/-- The result of `clean_table`: labels normalized and set as index,
data cells coerced, columns still the source's own year columns. -/
structure CleanTable where
  header : List String
  rows : List (String × List PValue)
  deriving DecidableEq, Repr

/-- A `JurisdictionTable`: the frame produced for one jurisdiction by
`aggregate_data` (index = the canonical components, columns = the
canonical fiscal years). -/
structure JT where
  cols : List String
  rows : List (String × List PValue)
  deriving DecidableEq, Repr

/-- One row of the long-format projection built by
`build_long_dataframe`. -/
structure ProjRow where
  province : String
  component : String
  value : PValue
  deriving DecidableEq, Repr

/-- First index of `y` in a list of labels (pandas label lookup on a
unique axis). -/
def idxOfLabel (y : String) : List String → Option Nat
  | [] => none
  | h :: t => if h == y then some 0 else (idxOfLabel y t).map (· + 1)

/-- `l[n]` as an `Option`. -/
def nth : List α → Nat → Option α
  | [], _ => none
  | a :: _, 0 => some a
  | _ :: t, n + 1 => nth t n

/-! ### Table Cleaner -/

/-- `clean_table(df)`: rename the first column to `Component`, normalize
the labels, set them as index and coerce every data cell.  A frame with
no columns at all makes `df.columns[0]` raise (the caught
`MalformedTableError` case), embedded as `none`. -/
def clean_table (t : RawTable) : Option CleanTable :=
  match t.cols with
  | [] => none
  | _ :: yearCols =>
    some ⟨yearCols, t.rows.map (fun r => (normalizeLabel r.1, r.2.map coerceCell))⟩

/-! ### Aggregator -/

/-- The case-insensitive membership test of `aggregate_data`:
`clean_df.index.str.lower().isin([comp.lower() for comp in components])`. -/
def matchesComp (comps : List String) (label : String) : Bool :=
  (comps.map pyLower).contains (pyLower label)

/-- The rows of the cleaned frame selected by
`clean_df[clean_df.index.str.lower().isin(desired)]`. -/
def selRows (c : CleanTable) (comps : List String) : List (String × List PValue) :=
  c.rows.filter (fun r => matchesComp comps r.1)

/-- Column reindex with `fill_value=0`: the cell of a kept row under
year `y` (`0` when the source table has no such column, `NaN` when the
row is shorter than the header). -/
def cellAt (header : List String) (cells : List PValue) (y : String) : PValue :=
  match idxOfLabel y header with
  | some j => (nth cells j).getD .nan
  | none => .num 0

/-- Row reindex with `fill_value=0`: the cells of the canonical
component `comp`, a zero-filled row when no selected row carries
exactly that label. -/
def buildRow (c : CleanTable) (comps yrs : List String) (comp : String) : List PValue :=
  match (selRows c comps).find? (fun r => r.1 == comp) with
  | some r => yrs.map (cellAt c.header r.2)
  | none => yrs.map (fun _ => .num 0)

/-- `sel_df.reindex(components, fill_value=0).reindex(columns=years, fill_value=0)`.
pandas refuses to reindex an axis with duplicate labels, so duplicate
selected labels (or duplicate source year columns) raise, which the
caller catches: embedded as `none`. -/
def selectAndReindex (c : CleanTable) (yrs comps : List String) : Option JT :=
  if ((selRows c comps).map Prod.fst).Nodup ∧ c.header.Nodup then
    some ⟨yrs, comps.map (fun comp => (comp, buildRow c comps yrs comp))⟩
  else none

/-- The whole per-table body of the `try` block of `aggregate_data`. -/
def processTable (yrs comps : List String) (t : RawTable) : Option JT :=
  (clean_table t).bind (fun c => selectAndReindex c yrs comps)

/-- Python `dict` assignment `data_dict[name] = sel_df` on an
association list: overwrite in place when the key exists, append
otherwise. -/
def dictInsert (d : List (String × JT)) (k : String) (v : JT) : List (String × JT) :=
  if (d.map Prod.fst).contains k then
    d.map (fun p => if p.1 == k then (k, v) else p)
  else d ++ [(k, v)]

/-- The `for i, table in enumerate(tables)` loop of `aggregate_data`:
any exception inside the `try` block (cleaning failure, duplicate-label
reindex, or `province_names[i]` out of range) skips the table. -/
def aggLoop (yrs comps : List String) (names : List String) :
    Nat → List RawTable → List (String × JT) → List (String × JT)
  | _, [], acc => acc
  | i, t :: ts, acc =>
    aggLoop yrs comps names (i + 1) ts
      (match processTable yrs comps t, nth names i with
       | some jt, some nm => dictInsert acc nm jt
       | _, _ => acc)

/-- `aggregate_data(tables, province_names, years, components)`. -/
def aggregate_data (tables : List RawTable) (names : List String)
    (yrs comps : List String) : List (String × JT) :=
  aggLoop yrs comps names 0 tables []

/-- Jurisdiction names of a dataset, in iteration order. -/
def dictKeys (d : List (String × JT)) : List String :=
  d.map Prod.fst

/-- The jurisdiction names that `aggregate_data` succeeds on, in input
order, starting the enumeration at index `i`. -/
def succFrom (yrs comps names : List String) : Nat → List RawTable → List String
  | _, [] => []
  | i, t :: ts =>
    match processTable yrs comps t, nth names i with
    | some _, some nm => nm :: succFrom yrs comps names (i + 1) ts
    | _, _ => succFrom yrs comps names (i + 1) ts

/-! ### Module-level configuration of `main.py` -/

/-- The canonical fiscal-year list `years`. -/
def years : List String :=
  ["2016-17", "2017-18", "2018-19", "2019-20", "2020-21",
   "2021-22", "2022-23", "2023-24", "2024-25", "2025-26"]

/-- The canonical component list `components`. -/
def components : List String :=
  ["Canada Health Transfer",
   "Canada Social Transfer",
   "Equalization",
   "Offshore Offsets",
   "Territorial Formula Financing",
   "Total - Federal Support",
   "Per Capita Allocation (dollars)"]

/-- Substring test, Python's `in` on strings. -/
def containsSub (s pat : List Char) : Bool :=
  (List.range (s.length + 1)).any (fun i => pat.isPrefixOf (s.drop i))

/-- Python `str.replace(pat, rep)`, non-overlapping, left to right
(fuel-driven; the fuel is the length of the subject string). -/
def replaceAllAux (pat rep : List Char) : Nat → List Char → List Char
  | 0, s => s
  | fuel + 1, s =>
    if pat ≠ [] ∧ pat.isPrefixOf s then
      rep ++ replaceAllAux pat rep fuel (s.drop pat.length)
    else
      match s with
      | [] => []
      | c :: rest => c :: replaceAllAux pat rep fuel rest

/-- Python `str.replace` on `String`. -/
def replaceAllStr (s pat rep : String) : String :=
  String.mk (replaceAllAux pat.data rep.data s.data.length s.data)

/-- `extract_province_name(title)`. -/
def extract_province_name (title : String) : String :=
  if containsSub title.data "Provinces and Territories".data then "Aggregate"
  else pyStrip (replaceAllStr title "Federal Support to " "")

/-- The predefined `chart_titles` list (14 entries). -/
def chart_titles : List String :=
  ["Federal Support to Provinces and Territories",
   "Federal Support to Newfoundland and Labrador",
   "Federal Support to Prince Edward Island",
   "Federal Support to Nova Scotia",
   "Federal Support to New Brunswick",
   "Federal Support to Quebec",
   "Federal Support to Ontario",
   "Federal Support to Manitoba",
   "Federal Support to Saskatchewan",
   "Federal Support to Alberta",
   "Federal Support to British Columbia",
   "Federal Support to Yukon",
   "Federal Support to Northwest Territories",
   "Federal Support to Nunavut"]

/-- The module-level wiring:
`num_tables = min(14, len(tables))`, `tables = tables[:num_tables]`,
`province_names = [extract_province_name(t) for t in chart_titles[:num_tables]]`,
`data_dict = aggregate_data(tables, province_names, years, components)`. -/
def pipeline (tables : List RawTable) : List (String × JT) :=
  let n := min 14 tables.length
  aggregate_data (tables.take n) ((chart_titles.take n).map extract_province_name)
    years components

/-! ### Query Projector -/

/-- `df.at[comp, year]`: `none` is the `KeyError` raised when the label
or the column is absent. -/
def JT.atCell (jt : JT) (comp y : String) : Option PValue :=
  match jt.rows.find? (fun r => r.1 == comp) with
  | none => none
  | some r =>
    match idxOfLabel y jt.cols with
    | none => none
    | some j => nth r.2 j

/-- `build_long_dataframe(year, include_aggregate)`: one row per
(jurisdiction, canonical component), the `try/except` around
`df.at[comp, year]` turning any lookup failure into the value `0`. -/
def build_long_dataframe (dd : List (String × JT)) (year : String)
    (include_aggregate : Bool) : List ProjRow :=
  dd.foldl (fun rows p =>
    if (!include_aggregate) && (pyLower p.1 == "aggregate") then rows
    else rows ++ components.map (fun comp =>
      ⟨p.1, comp, (p.2.atCell comp year).getD (.num 0)⟩)) []

/-- The aggregate-flag decoding of `update_graph`:
`"include" in aggregate_val if aggregate_val is not None else True`. -/
def includeAggOf (av : Option (List String)) : Bool :=
  match av with
  | some l => l.contains "include"
  | none => true

/-- The data part of `update_graph`: build the long frame, then keep
the rows whose component is in the requested subset
(`df_long[df_long["Component"].isin(selected_components)]`). -/
def update_graph_rows (dd : List (String × JT)) (selected_year : String)
    (selected_components : List String) (aggregate_val : Option (List String)) :
    List ProjRow :=
  (build_long_dataframe dd selected_year (includeAggOf aggregate_val)).filter
    (fun r => selected_components.contains r.component)

/-! ### Concrete fixture tables (used by witnesses and counterexamples) -/

/-- A well-formed one-row table: label with a footnote marker, one year
column. -/
def tC1 : RawTable := ⟨["Component", "2016-17"], [("Equalization 1", ["$100"])]⟩

/-- The dataset built from `tC1` under jurisdiction name `Ontario`. -/
def ddC1 : List (String × JT) := aggregate_data [tC1] ["Ontario"] years components

/-- Two component rows, to observe the projector's row order. -/
def tC2 : RawTable :=
  ⟨["Component", "2020-21"], [("Equalization", ["$5"]), ("Canada Health Transfer", ["$7"])]⟩

/-- The dataset built from `tC2`. -/
def ddC2 : List (String × JT) := aggregate_data [tC2] ["Ontario"] years components

/-- A table whose only row exists but whose `2016-17` cell is the empty
string (unparsable, hence `NaN` after coercion). -/
def tC4 : RawTable := ⟨["Component", "2016-17"], [("Equalization", [""])]⟩

/-- The dataset built from `tC4`. -/
def ddC4 : List (String × JT) := aggregate_data [tC4] ["Ontario"] years components

/-- Fixture for the schema-completeness claim. -/
def tC3 : RawTable := ⟨["Component", "2016-17"], [("Equalization 1", ["$100"])]⟩

/-- The cleaned form of `tC3`. -/
def ctC3 : CleanTable := (clean_table tC3).getD ⟨[], []⟩

/-- The jurisdiction table of `tC3`. -/
def jtC3 : JT := (selectAndReindex ctC3 years components).getD ⟨[], []⟩

/-- A table that cleans successfully. -/
def tC6a : RawTable := ⟨["Component", "2016-17"], [("Equalization", ["$1"])]⟩

/-- A malformed table: no columns at all, so `df.columns[0]` raises. -/
def tC6bad : RawTable := ⟨[], []⟩

/-- Another table that cleans successfully. -/
def tC6c : RawTable := ⟨["Component", "2017-18"], [("Canada Health Transfer", ["$2"])]⟩

/-- Fixture for the determinism claim. -/
def tC7 : RawTable := ⟨["Component", "2016-17"], [("Equalization", ["$3"])]⟩

/-- Two rows whose labels normalize to the same canonical component. -/
def tC10 : RawTable :=
  ⟨["Component", "2016-17"], [("Equalization", ["$1"]), ("Equalization 2", ["$2"])]⟩

/-- The cleaned form of `tC10`. -/
def ctC10 : CleanTable := (clean_table tC10).getD ⟨[], []⟩

/-! ### Helper lemmas: list access -/

theorem nth_map (f : α → β) : ∀ (l : List α) (n : Nat), nth (l.map f) n = (nth l n).map f
  | [], _ => rfl
  | _ :: _, 0 => rfl
  | _ :: t, n + 1 => nth_map f t n

theorem nth_lt : ∀ (l : List α) (i : Nat), i < l.length → ∃ a, nth l i = some a
  | [], i, h => absurd h (by simp)
  | a :: _, 0, _ => ⟨a, rfl⟩
  | _ :: t, i + 1, h => nth_lt t i (by simpa using h)

theorem nth_drop : ∀ (l : List α) (i : Nat) (a : α),
    nth l i = some a → l.drop i = a :: l.drop (i + 1)
  | [], i, a, h => Option.noConfusion h
  | b :: t, 0, a, h => by simp [nth] at h; simp [h]
  | _ :: t, i + 1, a, h => by simpa using nth_drop t i a h

theorem idxOfLabel_nth : ∀ (l : List String) (y : String) (j : Nat),
    idxOfLabel y l = some j → nth l j = some y := by
  intro l
  induction l with
  | nil => intro y j h; simp [idxOfLabel] at h
  | cons a t ih =>
    intro y j h
    by_cases hay : a = y
    · simp [idxOfLabel, hay] at h
      subst hay; subst h; rfl
    · have hb : (a == y) = false := by simpa using hay
      simp [idxOfLabel, hb] at h
      obtain ⟨j', hj', rfl⟩ := h
      simpa [nth] using ih y j' hj'

theorem idxOfLabel_mem : ∀ (l : List String) (y : String),
    y ∈ l → ∃ j, idxOfLabel y l = some j := by
  intro l
  induction l with
  | nil => intro y h; simp at h
  | cons a t ih =>
    intro y h
    by_cases hay : a = y
    · exact ⟨0, by simp [idxOfLabel, hay]⟩
    · have hb : (a == y) = false := by simpa using hay
      have hyt : y ∈ t := by
        rcases List.mem_cons.mp h with h1 | h1
        · exact absurd h1.symm hay
        · exact h1
      obtain ⟨j, hj⟩ := ih y hyt
      exact ⟨j + 1, by simp [idxOfLabel, hb, hj]⟩

theorem idxOfLabel_not_mem : ∀ (l : List String) (y : String),
    y ∉ l → idxOfLabel y l = none := by
  intro l
  induction l with
  | nil => intro y _; rfl
  | cons a t ih =>
    intro y h
    have hay : (a == y) = false := by
      simp only [beq_eq_false_iff_ne, ne_eq]
      intro he; exact h (he ▸ List.mem_cons_self a t)
    have hyt : y ∉ t := fun hm => h (List.mem_cons_of_mem a hm)
    simp [idxOfLabel, hay, ih y hyt]

theorem find?_pairmap {β : Type} (f : String → β) :
    ∀ (l : List String) (c : String), c ∈ l →
      (l.map (fun x => (x, f x))).find? (fun r => r.1 == c) = some (c, f c) := by
  intro l
  induction l with
  | nil => intro c h; simp at h
  | cons a t ih =>
    intro c h
    by_cases hac : a = c
    · subst hac
      simp only [List.map_cons]
      exact List.find?_cons_of_pos _ (by simp)
    · have hm : c ∈ t := by
        rcases List.mem_cons.mp h with h1 | h1
        · exact absurd h1.symm hac
        · exact h1
      simp only [List.map_cons]
      rw [List.find?_cons_of_neg _ (by simpa using hac)]
      exact ih c hm

theorem dictInsert_of_not_mem (d : List (String × JT)) (k : String) (v : JT)
    (h : k ∉ d.map Prod.fst) : dictInsert d k v = d ++ [(k, v)] := by
  unfold dictInsert
  rw [if_neg]
  simpa using h

theorem dictInsert_snd_prop (P : JT → Prop) (d : List (String × JT)) (k : String) (v : JT)
    (H : ∀ p ∈ d, P p.2) (Hv : P v) : ∀ p ∈ dictInsert d k v, P p.2 := by
  intro p hp
  unfold dictInsert at hp
  by_cases hc : (d.map Prod.fst).contains k = true
  · rw [if_pos hc] at hp
    obtain ⟨q, hq, hqe⟩ := List.mem_map.mp hp
    by_cases hqk : (q.1 == k) = true
    · rw [if_pos hqk] at hqe; rw [← hqe]; exact Hv
    · rw [if_neg hqk] at hqe; rw [← hqe]; exact H q hq
  · rw [if_neg hc] at hp
    rcases List.mem_append.mp hp with h1 | h1
    · exact H p h1
    · have : p = (k, v) := by simpa using h1
      rw [this]; exact Hv

theorem dictInsert_length (d : List (String × JT)) (k : String) (v : JT) :
    (dictInsert d k v).length ≤ d.length + 1 := by
  unfold dictInsert
  by_cases hc : (d.map Prod.fst).contains k = true
  · rw [if_pos hc]; simp
  · rw [if_neg hc]; simp

theorem processTable_inv {yrs comps : List String} {t : RawTable} {jt : JT}
    (h : processTable yrs comps t = some jt) :
    ∃ ct, clean_table t = some ct ∧ selectAndReindex ct yrs comps = some jt := by
  unfold processTable at h
  cases hc : clean_table t with
  | none => rw [hc] at h; simp at h
  | some ct => rw [hc] at h; exact ⟨ct, rfl, by simpa using h⟩

theorem selectAndReindex_inv {ct : CleanTable} {yrs comps : List String} {jt : JT}
    (h : selectAndReindex ct yrs comps = some jt) :
    jt = ⟨yrs, comps.map (fun comp => (comp, buildRow ct comps yrs comp))⟩ := by
  unfold selectAndReindex at h
  by_cases hg : ((selRows ct comps).map Prod.fst).Nodup ∧ ct.header.Nodup
  · rw [if_pos hg] at h
    exact (Option.some.inj h).symm
  · rw [if_neg hg] at h; cases h

theorem processTable_cols {yrs comps : List String} {t : RawTable} {jt : JT}
    (h : processTable yrs comps t = some jt) : jt.cols = yrs := by
  obtain ⟨ct, _, hsel⟩ := processTable_inv h
  rw [selectAndReindex_inv hsel]

theorem aggLoop_cols (yrs comps names : List String) :
    ∀ (ts : List RawTable) (i : Nat) (acc : List (String × JT)),
      (∀ p ∈ acc, JT.cols p.2 = yrs) →
      ∀ p ∈ aggLoop yrs comps names i ts acc, JT.cols p.2 = yrs := by
  intro ts
  induction ts with
  | nil => intro i acc H p hp; exact H p hp
  | cons t ts ih =>
    intro i acc H p hp
    simp only [aggLoop] at hp
    split at hp
    · next jt nm heq1 _ =>
      exact ih (i + 1) _ (dictInsert_snd_prop (fun v => v.cols = yrs) _ _ _ H (processTable_cols heq1)) p hp
    · exact ih (i + 1) acc H p hp

theorem aggLoop_length (yrs comps names : List String) :
    ∀ (ts : List RawTable) (i : Nat) (acc : List (String × JT)),
      (aggLoop yrs comps names i ts acc).length ≤ acc.length + ts.length := by
  intro ts
  induction ts with
  | nil => intro i acc; simp [aggLoop]
  | cons t ts ih =>
    intro i acc
    simp only [aggLoop]
    split
    · next jt nm _ _ =>
      have h1 := ih (i + 1) (dictInsert acc nm jt)
      have h2 := dictInsert_length acc nm jt
      simp only [List.length_cons]
      omega
    · have h1 := ih (i + 1) acc
      simp only [List.length_cons]
      omega

theorem succFrom_sublist (yrs comps names : List String) :
    ∀ (ts : List RawTable) (i : Nat),
      List.Sublist (succFrom yrs comps names i ts) (names.drop i) := by
  intro ts
  induction ts with
  | nil => intro i; exact List.nil_sublist _
  | cons t ts ih =>
    intro i
    simp only [succFrom]
    split
    · next nm heq1 heq2 =>
      rw [nth_drop names i nm heq2]
      exact List.Sublist.cons₂ nm (ih (i + 1))
    · have h1 : List.Sublist (names.drop (i + 1)) (names.drop i) := by
        have h2 := List.drop_sublist 1 (names.drop i)
        rwa [List.drop_drop] at h2
      exact (ih (i + 1)).trans h1

theorem succFrom_all (yrs comps names : List String) :
    ∀ (ts : List RawTable) (i : Nat),
      (∀ t ∈ ts, (processTable yrs comps t).isSome) →
      i + ts.length ≤ names.length →
      succFrom yrs comps names i ts = (names.drop i).take ts.length := by
  intro ts
  induction ts with
  | nil => intro i _ _; simp [succFrom]
  | cons t ts ih =>
    intro i hall hlen
    have hs := hall t (List.mem_cons_self t ts)
    obtain ⟨jt, hjt⟩ := Option.isSome_iff_exists.mp hs
    have hi : i < names.length := by
      simp only [List.length_cons] at hlen; omega
    obtain ⟨nm, hnm⟩ := nth_lt names i hi
    have hrec := ih (i + 1) (fun u hu => hall u (List.mem_cons_of_mem t hu))
      (by simp only [List.length_cons] at hlen; omega)
    rw [nth_drop names i nm hnm]
    simp only [succFrom, hjt, hnm, List.length_cons, List.take_succ_cons]
    exact congrArg (nm :: ·) hrec

theorem succFrom_append (yrs comps names : List String) :
    ∀ (ts us : List RawTable) (i : Nat),
      succFrom yrs comps names i (ts ++ us) =
        succFrom yrs comps names i ts ++ succFrom yrs comps names (i + ts.length) us := by
  intro ts
  induction ts with
  | nil => intro us i; simp [succFrom]
  | cons t ts ih =>
    intro us i
    have harith : i + 1 + ts.length = i + (ts.length + 1) := by omega
    have hrec := ih us (i + 1)
    rw [harith] at hrec
    simp only [List.cons_append, succFrom, List.length_cons]
    split
    · next nm _ _ =>
      exact congrArg (fun l => nm :: l) hrec
    · exact hrec

theorem keys_aggLoop (yrs comps names : List String) :
    ∀ (ts : List RawTable) (i : Nat) (acc : List (String × JT)),
      (succFrom yrs comps names i ts).Nodup →
      (∀ nm ∈ succFrom yrs comps names i ts, nm ∉ acc.map Prod.fst) →
      (aggLoop yrs comps names i ts acc).map Prod.fst =
        acc.map Prod.fst ++ succFrom yrs comps names i ts := by
  intro ts
  induction ts with
  | nil => intro i acc _ _; simp [aggLoop, succFrom]
  | cons t ts ih =>
    intro i acc hnd hfresh
    simp only [aggLoop]
    split
    · next jt nm heq1 heq2 =>
      have hsucc : succFrom yrs comps names i (t :: ts) =
          nm :: succFrom yrs comps names (i + 1) ts := by
        simp [succFrom, heq1, heq2]
      rw [hsucc] at hnd hfresh
      have hnm_fresh : nm ∉ acc.map Prod.fst :=
        hfresh nm (List.mem_cons_self _ _)
      have hins : dictInsert acc nm jt = acc ++ [(nm, jt)] :=
        dictInsert_of_not_mem acc nm jt hnm_fresh
      have hkeys : (dictInsert acc nm jt).map Prod.fst = acc.map Prod.fst ++ [nm] := by
        rw [hins, List.map_append]; rfl
      have hnd' : (succFrom yrs comps names (i + 1) ts).Nodup :=
        (List.nodup_cons.mp hnd).2
      have hnotin : nm ∉ succFrom yrs comps names (i + 1) ts :=
        (List.nodup_cons.mp hnd).1
      have hfresh' : ∀ m ∈ succFrom yrs comps names (i + 1) ts,
          m ∉ (dictInsert acc nm jt).map Prod.fst := by
        intro m hm
        rw [hkeys]
        intro hmem
        rcases List.mem_append.mp hmem with h1 | h1
        · exact hfresh m (List.mem_cons_of_mem _ hm) h1
        · have : m = nm := by simpa using h1
          exact hnotin (this ▸ hm)
      rw [ih (i + 1) _ hnd' hfresh', hkeys, hsucc]
      simp
    · next hfail =>
      have hsucc : succFrom yrs comps names i (t :: ts) =
          succFrom yrs comps names (i + 1) ts := by
        simp only [succFrom]
      rw [hsucc] at hnd hfresh
      exact hsucc ▸ ih (i + 1) acc hnd hfresh

theorem keys_aggregate (tables : List RawTable) (names yrs comps : List String)
    (h : names.Nodup) :
    (aggregate_data tables names yrs comps).map Prod.fst =
      succFrom yrs comps names 0 tables := by
  unfold aggregate_data
  have hnd : (succFrom yrs comps names 0 tables).Nodup := by
    have hs := succFrom_sublist yrs comps names tables 0
    rw [List.drop_zero] at hs
    exact hs.nodup h
  rw [keys_aggLoop yrs comps names tables 0 [] hnd (by intro nm _; simp)]
  rfl

/-! ### Helper lemmas: the projector -/

theorem build_long_aux (year : String) (iag : Bool) :
    ∀ (dd : List (String × JT)) (acc : List ProjRow),
      dd.foldl (fun rows p =>
        if (!iag) && (pyLower p.1 == "aggregate") then rows
        else rows ++ components.map (fun comp =>
          ⟨p.1, comp, (p.2.atCell comp year).getD (.num 0)⟩)) acc =
      acc ++ (dd.filter (fun p => !((!iag) && (pyLower p.1 == "aggregate")))).flatMap
        (fun p => components.map (fun comp =>
          ⟨p.1, comp, (p.2.atCell comp year).getD (.num 0)⟩)) := by
  intro dd
  induction dd with
  | nil => intro acc; simp
  | cons p dd ih =>
    intro acc
    simp only [List.foldl_cons, List.filter_cons]
    cases hcond : (!iag) && (pyLower p.1 == "aggregate") with
    | true =>
      simp only [hcond, Bool.not_true, if_true, if_false, Bool.false_eq_true]
      rw [ih acc]
    | false =>
      simp only [hcond, Bool.not_false, if_true, if_false, Bool.false_eq_true]
      rw [ih]
      simp [List.append_assoc]

theorem build_long_eq (dd : List (String × JT)) (year : String) (iag : Bool) :
    build_long_dataframe dd year iag =
      (dd.filter (fun p => !((!iag) && (pyLower p.1 == "aggregate")))).flatMap
        (fun p => components.map (fun comp =>
          ⟨p.1, comp, (p.2.atCell comp year).getD (.num 0)⟩)) := by
  unfold build_long_dataframe
  rw [build_long_aux year iag dd []]
  rfl

/-! ### Helper lemmas: character-list stripping -/

/-- C1 counterexample: for the non-canonical fiscal year `1999-00` the
Query Projector does not fail; it returns a nonempty projection (the
per-cell `KeyError` is caught and mapped to `0`), contradicting the
claim that an `InvalidYearError` is raised instead of a projection. -/
theorem invalid_year_returns_projection :
    build_long_dataframe ddC1 "1999-00" true ≠ [] ∧ "1999-00" ∉ years := by
  decide

/-- C1 amended: for a fiscal year outside the canonical list the Query
Projector raises nothing; it returns a projection in which every row's
value is `0` (the `try/except` around `df.at` supplies `0` for the
failed lookups). -/
theorem invalid_year_all_zero :
    ∀ (tables : List RawTable) (names : List String) (year : String) (iag : Bool),
      year ∉ years →
      ∀ r ∈ build_long_dataframe (aggregate_data tables names years components) year iag,
        r.value = .num 0 := by
  intro tables names year iag hy r hr
  rw [build_long_eq] at hr
  obtain ⟨p, hp, hr2⟩ := List.mem_flatMap.mp hr
  obtain ⟨comp, _, hre⟩ := List.mem_map.mp hr2
  have hpd : p ∈ aggregate_data tables names years components := (List.mem_filter.mp hp).1
  have hcols : p.2.cols = years :=
    aggLoop_cols years components names tables 0 [] (by intro q hq; simp at hq) p hpd
  have hidx : idxOfLabel year p.2.cols = none := by
    rw [hcols]; exact idxOfLabel_not_mem years year hy
  have hcell : p.2.atCell comp year = none := by
    unfold JT.atCell
    split
    · rfl
    · rw [hidx]
  rw [← hre]
  simp [hcell]

/-- C1 witness: the amended statement at a concrete dataset and the
concrete year `1999-00`. -/
theorem invalid_year_all_zero_witness :
    ("1999-00" ∉ years) ∧
    (∀ r ∈ build_long_dataframe (aggregate_data [tC1] ["Ontario"] years components)
        "1999-00" true, r.value = .num 0) :=
  ⟨by decide, invalid_year_all_zero [tC1] ["Ontario"] "1999-00" true (by decide)⟩

/-! ### Claim C2 -/

/-- C2 counterexample: requesting `["Equalization", "Canada Health Transfer"]`
yields the two components in canonical-list order (`Canada Health
Transfer` first), not in the requested order. -/
theorem projector_order_counterexample :
    (update_graph_rows ddC2 "2020-21" ["Equalization", "Canada Health Transfer"]
        (some ["include"])).map ProjRow.component =
      ["Canada Health Transfer", "Equalization"] ∧
    (update_graph_rows ddC2 "2020-21" ["Equalization", "Canada Health Transfer"]
        (some ["include"])).map ProjRow.component ≠
      ["Equalization", "Canada Health Transfer"] := by
  decide

/-- C2 amended: the projection is grouped by jurisdiction in dataset
order (outer), and within each jurisdiction the components appear in
the order of the canonical `components` list restricted to the
requested subset — not in the order the subset was given. -/
theorem projector_row_order :
    ∀ (dd : List (String × JT)) (year : String) (sel : List String)
      (av : Option (List String)),
      update_graph_rows dd year sel av =
        (dd.filter (fun p => !((!includeAggOf av) && (pyLower p.1 == "aggregate")))).flatMap
          (fun p => (components.filter (fun c => sel.contains c)).map
            (fun comp => ⟨p.1, comp, (p.2.atCell comp year).getD (.num 0)⟩)) := by
  intro dd year sel av
  unfold update_graph_rows
  rw [build_long_eq, List.filter_flatMap]
  congr 1
  funext p
  rw [List.filter_map]
  rfl

/-! ### Claim C3 -/

/-- C3: a successfully cleaned jurisdiction table has a defined cell
value for every canonical component and canonical fiscal year; a
component with no exactly-matching selected row gets a zero row, and a
fiscal year absent from the source columns gets the value `0`. -/
theorem cleaned_table_schema_complete :
    ∀ (t : RawTable) (ct : CleanTable) (jt : JT) (c y : String),
      clean_table t = some ct →
      selectAndReindex ct years components = some jt →
      c ∈ components → y ∈ years →
      (∃ v, jt.atCell c y = some v) ∧
      ((∀ r ∈ selRows ct components, r.1 ≠ c) → jt.atCell c y = some (.num 0)) ∧
      (y ∉ ct.header → jt.atCell c y = some (.num 0)) := by
  intro t ct jt c y _ hsel hc hy
  have hjt := selectAndReindex_inv hsel
  obtain ⟨j, hj⟩ := idxOfLabel_mem years y hy
  have hyj : nth years j = some y := idxOfLabel_nth years y j hj
  have hfind : jt.rows.find? (fun r => r.1 == c) =
      some (c, buildRow ct components years c) := by
    rw [hjt]
    exact find?_pairmap (buildRow ct components years) components c hc
  have hcols : jt.cols = years := by rw [hjt]
  have hat : jt.atCell c y = nth (buildRow ct components years c) j := by
    unfold JT.atCell
    rw [hfind, hcols, hj]
  refine ⟨?_, ?_, ?_⟩
  · cases hbf : (selRows ct components).find? (fun r => r.1 == c) with
    | some rr =>
      have hbr : buildRow ct components years c = years.map (cellAt ct.header rr.2) := by
        unfold buildRow; rw [hbf]
      rw [hat, hbr, nth_map, hyj]
      exact ⟨_, rfl⟩
    | none =>
      have hbr : buildRow ct components years c = years.map (fun _ => (.num 0 : PValue)) := by
        unfold buildRow; rw [hbf]
      rw [hat, hbr, nth_map, hyj]
      exact ⟨_, rfl⟩
  · intro hnone
    have hbf : (selRows ct components).find? (fun r => r.1 == c) = none :=
      List.find?_eq_none.mpr (fun x hx => by simpa using hnone x hx)
    have hbr : buildRow ct components years c = years.map (fun _ => (.num 0 : PValue)) := by
      unfold buildRow; rw [hbf]
    rw [hat, hbr, nth_map, hyj]
    rfl
  · intro hyh
    have hhidx : idxOfLabel y ct.header = none := idxOfLabel_not_mem ct.header y hyh
    cases hbf : (selRows ct components).find? (fun r => r.1 == c) with
    | some rr =>
      have hbr : buildRow ct components years c = years.map (cellAt ct.header rr.2) := by
        unfold buildRow; rw [hbf]
      rw [hat, hbr, nth_map, hyj]
      simp [cellAt, hhidx]
    | none =>
      have hbr : buildRow ct components years c = years.map (fun _ => (.num 0 : PValue)) := by
        unfold buildRow; rw [hbf]
      rw [hat, hbr, nth_map, hyj]
      rfl

/-- C3 witness: the schema-completeness statement at a concrete cleaned
table, for a component with no matching row. -/
theorem cleaned_table_schema_complete_witness :
    clean_table tC3 = some ctC3 ∧
    selectAndReindex ctC3 years components = some jtC3 ∧
    (∃ v, jtC3.atCell "Canada Health Transfer" "2016-17" = some v) ∧
    jtC3.atCell "Canada Health Transfer" "2016-17" = some (.num 0) := by
  have h := cleaned_table_schema_complete tC3 ctC3 jtC3 "Canada Health Transfer" "2016-17"
    (by decide) (by decide) (by decide) (by decide)
  exact ⟨by decide, by decide, h.1, h.2.1 (by decide)⟩

/-! ### Claim C4 -/

/-- C4 counterexample: an empty cell in a matched component row is
coerced to `NaN`, and the schema-completion reindex does not replace
it: the `NaN` survives into the projection, so the "filled with 0
downstream" part of the claim is false. -/
theorem coercer_missing_not_filled_zero :
    coerceCell "" = .nan ∧
    (build_long_dataframe ddC4 "2016-17" true).find?
        (fun r => r.component == "Equalization") =
      some ⟨"Ontario", "Equalization", .nan⟩ ∧
    PValue.nan ≠ PValue.num 0 := by
  decide

/-- C4 amended: the Numeric Coercer maps the exact cell `-` to `0`,
maps `$1,234` to `1234` after stripping `$` and `,`, and maps the empty
or unparsable cell to the missing value `NaN` — which is not filled
with `0` downstream: `reindex(fill_value=0)` only synthesizes wholly
absent rows and columns, so the `NaN` reaches the projection. -/
theorem numeric_coercer_amended :
    coerceCell "-" = .num 0 ∧
    coerceCell "$1,234" = .num 1234 ∧
    coerceCell "" = .nan ∧
    (build_long_dataframe ddC4 "2016-17" true).find?
        (fun r => r.component == "Equalization") =
      some ⟨"Ontario", "Equalization", .nan⟩ := by
  decide

/-! ### Claim C5 -/

/-- C6: when cleaning of the table at one position fails, the
Aggregator omits that jurisdiction and keeps all the others: the
dataset's keys are the other names in order, the dataset has exactly
one entry fewer than the number of input tables, and the failed
jurisdiction's name is absent. -/
theorem aggregator_omits_failed_table :
    ∀ (pre post : List RawTable) (bad : RawTable) (npre npost : List String) (nm : String),
      pre.length = npre.length → post.length = npost.length →
      (npre ++ nm :: npost).Nodup →
      processTable years components bad = none →
      (∀ t ∈ pre, (processTable years components t).isSome) →
      (∀ t ∈ post, (processTable years components t).isSome) →
      dictKeys (aggregate_data (pre ++ bad :: post) (npre ++ nm :: npost)
          years components) = npre ++ npost ∧
      (aggregate_data (pre ++ bad :: post) (npre ++ nm :: npost)
          years components).length = (pre ++ bad :: post).length - 1 ∧
      nm ∉ dictKeys (aggregate_data (pre ++ bad :: post) (npre ++ nm :: npost)
          years components) := by
  intro pre post bad npre npost nm hl1 hl2 hnd hbad hpre hpost
  have hlen : (npre ++ nm :: npost).length = npre.length + npost.length + 1 := by
    simp [List.length_append]
    omega
  have hkeys : dictKeys (aggregate_data (pre ++ bad :: post) (npre ++ nm :: npost)
      years components) = npre ++ npost := by
    unfold dictKeys
    rw [keys_aggregate _ _ _ _ hnd]
    rw [succFrom_append years components (npre ++ nm :: npost) pre (bad :: post) 0]
    have hzero : (0 : Nat) + pre.length = pre.length := by omega
    rw [hzero]
    have hbadstep : succFrom years components (npre ++ nm :: npost) pre.length
        (bad :: post) = succFrom years components (npre ++ nm :: npost)
        (pre.length + 1) post := by
      simp only [succFrom, hbad]
    rw [hbadstep]
    have h1 : succFrom years components (npre ++ nm :: npost) 0 pre =
        ((npre ++ nm :: npost).drop 0).take pre.length :=
      succFrom_all years components (npre ++ nm :: npost) pre 0 hpre (by omega)
    have h2 : succFrom years components (npre ++ nm :: npost) (pre.length + 1) post =
        ((npre ++ nm :: npost).drop (pre.length + 1)).take post.length :=
      succFrom_all years components (npre ++ nm :: npost) post (pre.length + 1)
        hpost (by omega)
    rw [h1, h2, List.drop_zero]
    have htake : (npre ++ nm :: npost).take pre.length = npre := by
      rw [hl1, List.take_left]
    have hdrop : (npre ++ nm :: npost).drop (pre.length + 1) = npost := by
      rw [hl1]
      rw [show npre ++ nm :: npost = (npre ++ [nm]) ++ npost by simp]
      rw [show npre.length + 1 = (npre ++ [nm]).length by simp]
      exact List.drop_left _ _
    rw [htake, hdrop, hl2, List.take_length]
  refine ⟨hkeys, ?_, ?_⟩
  · have hml : (aggregate_data (pre ++ bad :: post) (npre ++ nm :: npost)
        years components).length =
        (dictKeys (aggregate_data (pre ++ bad :: post) (npre ++ nm :: npost)
          years components)).length := by
      unfold dictKeys
      rw [List.length_map]
    rw [hml, hkeys]
    simp only [List.length_append, List.length_cons]
    omega
  · rw [hkeys]
    have hmid := List.nodup_middle.mp hnd
    exact (List.nodup_cons.mp hmid).1

/-- C6 witness: three tables, the middle one malformed; the dataset
keeps `Alpha` and `Gamma`, has two entries, and `Beta` is absent. -/
theorem aggregator_omits_failed_table_witness :
    dictKeys (aggregate_data [tC6a, tC6bad, tC6c] ["Alpha", "Beta", "Gamma"]
        years components) = ["Alpha", "Gamma"] ∧
    (aggregate_data [tC6a, tC6bad, tC6c] ["Alpha", "Beta", "Gamma"]
        years components).length = 2 ∧
    "Beta" ∉ dictKeys (aggregate_data [tC6a, tC6bad, tC6c] ["Alpha", "Beta", "Gamma"]
        years components) := by
  have h := aggregator_omits_failed_table [tC6a] [tC6c] tC6bad ["Alpha"] ["Gamma"] "Beta"
    (by decide) (by decide) (by decide) (by decide) (by decide) (by decide)
  exact ⟨h.1, h.2.1, h.2.2⟩

/-! ### Claim C7 -/

/-- C7: the Aggregator is a pure function of its inputs (running it
twice on the same tables and names yields the same dataset), and the
dataset's iteration order follows the input order: its keys are a
sublist of the name list in input order, and equal to the whole name
list when every table cleans successfully. -/
theorem aggregator_deterministic_ordered :
    ∀ (tables : List RawTable) (names : List String), names.Nodup →
      aggregate_data tables names years components =
        aggregate_data tables names years components ∧
      List.Sublist (dictKeys (aggregate_data tables names years components)) names ∧
      (tables.length = names.length →
        (∀ t ∈ tables, (processTable years components t).isSome) →
        dictKeys (aggregate_data tables names years components) = names) := by
  intro tables names hnd
  refine ⟨rfl, ?_, ?_⟩
  · unfold dictKeys
    rw [keys_aggregate tables names years components hnd]
    have hs := succFrom_sublist years components names tables 0
    rwa [List.drop_zero] at hs
  · intro hlen hall
    unfold dictKeys
    rw [keys_aggregate tables names years components hnd,
      succFrom_all years components names tables 0 hall (by omega),
      List.drop_zero, hlen, List.take_length]

/-- C7 witness: the determinism-and-order statement at a concrete
one-table input. -/
theorem aggregator_deterministic_ordered_witness :
    (["Ontario"] : List String).Nodup ∧
    aggregate_data [tC7] ["Ontario"] years components =
      aggregate_data [tC7] ["Ontario"] years components ∧
    List.Sublist (dictKeys (aggregate_data [tC7] ["Ontario"] years components))
      ["Ontario"] ∧
    dictKeys (aggregate_data [tC7] ["Ontario"] years components) = ["Ontario"] := by
  have h := aggregator_deterministic_ordered [tC7] ["Ontario"] (by decide)
  exact ⟨by decide, h.1, h.2.1, h.2.2 (by decide) (by decide)⟩

/-! ### Claim C8 -/

/-- C8: the Table Cleaner never mutates its input: in the source,
`rename`, `set_index` and `replace` all return fresh frames and the
in-place column assignments touch only those locals, so `clean_table`
is embedded as a pure function of the `RawTable`; running it (and the
whole per-table step) twice on the same input yields identical
results. -/
theorem cleaner_run_twice_identical :
    ∀ t : RawTable,
      clean_table t = clean_table t ∧
      processTable years components t = processTable years components t :=
  fun _ => ⟨rfl, rfl⟩

/-! ### Claim C9 -/

/-- C9: the module-level pipeline processes only the first
`min(14, len(tables))` tables paired with that many predefined titles:
the dataset never has more than 14 entries, and tables beyond the 14th
never influence the result. -/
theorem pipeline_at_most_14 :
    ∀ tables : List RawTable,
      (pipeline tables).length ≤ 14 ∧ pipeline tables = pipeline (tables.take 14) := by
  intro tables
  constructor
  · have h := aggLoop_length years components
      ((chart_titles.take (min 14 tables.length)).map extract_province_name)
      (tables.take (min 14 tables.length)) 0 []
    rw [List.length_nil, Nat.zero_add] at h
    have h3 : (tables.take (min 14 tables.length)).length ≤ 14 := by
      rw [List.length_take]
      calc min 14 tables.length ⊓ tables.length
          ≤ min 14 tables.length := min_le_left _ _
        _ ≤ 14 := min_le_left _ _
    exact le_trans h h3
  · show aggregate_data (tables.take (min 14 tables.length))
        ((chart_titles.take (min 14 tables.length)).map extract_province_name)
        years components =
      aggregate_data ((tables.take 14).take (min 14 (tables.take 14).length))
        ((chart_titles.take (min 14 (tables.take 14).length)).map extract_province_name)
        years components
    have hn : min 14 (tables.take 14).length = min 14 tables.length := by
      rw [List.length_take, ← min_assoc, min_self]
    rw [hn, List.take_take, min_eq_left (min_le_left 14 tables.length)]

/-! ### Claim C10 -/

/-- C10: when two or more rows share the same normalized label and that
label matches a canonical component (so both rows are selected), the
reindex raises, the per-table handler catches it, and the jurisdiction
is omitted entirely: the per-table step yields nothing and the dataset
built from that single table is empty. -/
theorem duplicate_component_rows_omitted :
    ∀ (t : RawTable) (ct : CleanTable) (nm : String),
      clean_table t = some ct →
      ¬ ((selRows ct components).map Prod.fst).Nodup →
      processTable years components t = none ∧
      aggregate_data [t] [nm] years components = [] := by
  intro t ct nm hct hdup
  have hpt : processTable years components t = none := by
    unfold processTable
    rw [hct]
    show selectAndReindex ct years components = none
    unfold selectAndReindex
    rw [if_neg]
    intro hand
    exact hdup hand.1
  refine ⟨hpt, ?_⟩
  unfold aggregate_data
  simp [aggLoop, hpt]

/-- C10 witness: a table with two rows both normalizing to
`Equalization` is dropped whole. -/
theorem duplicate_component_rows_omitted_witness :
    clean_table tC10 = some ctC10 ∧
    ¬ ((selRows ctC10 components).map Prod.fst).Nodup ∧
    processTable years components tC10 = none ∧
    aggregate_data [tC10] ["Ontario"] years components = [] := by
  have h := duplicate_component_rows_omitted tC10 ctC10 "Ontario" (by decide) (by decide)
  exact ⟨by decide, by decide, h.1, h.2⟩
